import Mathlib

/-!
Shallow embedding of the teacat/i18n Go package (i18n.go, locale.go).

Go maps are embedded as association lists (`List (String × α)`) with
first-match lookup and in-place replacement on insert; the claims settled
here are either order-insensitive or about concrete states, so the fixed
iteration order of an association list is a faithful refinement of Go's
unspecified map order.  Unbounded recursion (`lookupBestFallback`) is
embedded with an explicit fuel parameter: `none` marks a run that would
recurse deeper than the given fuel.  External collaborators (file reading
plus the pluggable unmarshaler) are modelled as an environment mapping a
filename to either an error or a decoded name/text list.  `text/template`
execution is external as well and is modelled by an arbitrary function
`exec : String → String` applied to the stored template source.
-/

namespace I18nGo

/-- Go map lookup on an association list (first binding wins). -/
def mapGet {α : Type} : List (String × α) → String → Option α
  | [], _ => none
  | p :: rest, k => if p.1 = k then some p.2 else mapGet rest k

/-- Go map assignment: replace the existing binding or append a new one. -/
def mapInsert {α : Type} : List (String × α) → String → α → List (String × α)
  | [], k, v => [(k, v)]
  | p :: rest, k, v => if p.1 = k then (k, v) :: rest else p :: mapInsert rest k v

/-- Nested map lookup `m[l][n]`; a missing locale behaves like Go's nil map. -/
def mapGet2 {α : Type} (m : List (String × List (String × α))) (l n : String) : Option α :=
  match mapGet m l with
  | none => none
  | some slot => mapGet slot n

/-- Nested map assignment `m[l][n] = v`. -/
def mapInsert2 {α : Type} (m : List (String × List (String × α))) (l n : String) (v : α) :
    List (String × List (String × α)) :=
  mapInsert m l (mapInsert ((mapGet m l).getD []) n v)

/-- `hasPre sub s` holds when `sub` is an initial run of `s` (helper for substring search). -/
def hasPre : List Char → List Char → Bool
  | [], _ => true
  | _ :: _, [] => false
  | a :: as, b :: bs => a == b && hasPre as bs

/-- Embeds `strings.Contains`: does `sub` occur anywhere inside the second list? -/
def hasSub (sub : List Char) : List Char → Bool
  | [] => hasPre sub []
  | c :: rest => hasPre sub (c :: rest) || hasSub sub rest

/-- The `" | "` variant separator used by `compileText`. -/
def sepBar : List Char := [' ', '|', ' ']

/-- The template-open marker `"\x7b\x7b"` checked by `compileText`. -/
def tmplOpen : List Char := ['\x7b', '\x7b']

/-- Embeds `strings.Split(text, " | ")`: left-to-right scan emitting the
segments between non-overlapping occurrences of the separator. -/
def splitBar : List Char → List Char → List (List Char)
  | [], acc => [acc.reverse]
  | ' ' :: '|' :: ' ' :: rest, acc => acc.reverse :: splitBar rest []
  | c :: rest, acc => splitBar rest (c :: acc)

/-- Scans for the leftmost `<` from which a `<…>` group (regex `.` matches no
newline) reaches the end of the remaining characters; returns the kept part
before the match.  Helper for `trimContext`. -/
def findCtxStart : List Char → List Char → Option (List Char)
  | [], _ => none
  | c :: rest, acc =>
    if c = '<' && !(rest.contains '\n') then some acc.reverse
    else findCtxStart rest (c :: acc)

/-- Embeds `trimContext`: `contextRegExp.ReplaceAllString(v, "")` with
`contextRegExp = <(.*?)>$`.  Note the pattern does not include the space
before `<`, so `"Post <verb>"` trims to `"Post "` (trailing space kept). -/
def trimContext (v : String) : String :=
  match v.data.getLast? with
  | some '>' =>
    match findCtxStart v.data.dropLast [] with
    | some before => String.mk before
    | none => v
  | _ => v

/-- Embeds the `Pluralizor` type `func(number, choices int) int`. -/
def Pluralizor : Type := Int → Int → Int

/-- Embeds `defaultPluralizor` from i18n.go. -/
def defaultPluralizor : Pluralizor := fun number choices =>
  if choices = 2 then
    if number = 0 ∨ number = 1 then 0 else 1
  else
    if number = 0 then 0 else if number = 1 then 1 else 2

/-- Embeds `compiledText`: a literal string or a (pre-parsed) template; the
template holds its source and is executed externally. -/
structure CompiledText where
  text : String
  tmpl : Option String

/-- Embeds `compiledTranslation`. -/
structure CompiledTranslation where
  locale : String
  name : String
  pluralizor : Pluralizor
  texts : List CompiledText

/-- Embeds the `I18n` core.  The vestigial `translations` field (written
nowhere in the source) and the `unmarshaler` field (external collaborator,
modelled by the file-system environment below) are omitted. -/
structure I18n where
  defaultLocale : String
  pluralizors : List (String × Pluralizor)
  fallbacks : List (String × List String)
  runtimeCompiledTranslations : List (String × CompiledTranslation)
  compiledTranslations : List (String × List (String × CompiledTranslation))

/-- Embeds `WithFallback`. -/
def WithFallback (f : List (String × List String)) : I18n → I18n :=
  fun i => { i with fallbacks := f }

/-- Embeds `WithPluralizor`. -/
def WithPluralizor (p : List (String × Pluralizor)) : I18n → I18n :=
  fun i => { i with pluralizors := p }

/-- Embeds `New`: the zero core with every option applied in order. -/
def New (defaultLocale : String) (options : List (I18n → I18n)) : I18n :=
  options.foldl (fun i o => o i)
    { defaultLocale := defaultLocale
      pluralizors := []
      fallbacks := []
      runtimeCompiledTranslations := []
      compiledTranslations := [] }

/-- Embeds `nameInsenstive` (sic): basename, text before the first `.`,
lowercased, `_` replaced by `-`.  `filepath.Base` is modelled for paths not
ending in a separator, the only shape the package ever feeds it. -/
def afterLastSlash : List Char → List Char → List Char
  | [], acc => acc.reverse
  | '/' :: rest, _ => afterLastSlash rest []
  | c :: rest, acc => afterLastSlash rest (c :: acc)

/-- Characters before the first `.` (helper for `nameInsenstive`). -/
def beforeFirstDot : List Char → List Char
  | [] => []
  | '.' :: _ => []
  | c :: rest => c :: beforeFirstDot rest

/-- Embeds `nameInsenstive` from i18n.go. -/
def nameInsenstive (v : String) : String :=
  String.mk (((beforeFirstDot (afterLastSlash v.data [])).map Char.toLower).map
    fun c => if c = '_' then '-' else c)

/-- Embeds `compileText`: split on `" | "`, compile a segment containing the
template-open marker as a template, keep the rest literal. -/
def compileText (text : String) : List CompiledText :=
  (splitBar text.data []).map fun v =>
    if hasSub tmplOpen v then { text := "", tmpl := some (String.mk v) }
    else { text := String.mk v, tmpl := none }

/-- Embeds `(*I18n).pluralizor`. -/
def I18n.pluralizor (i : I18n) (lang : String) : Pluralizor :=
  match mapGet i.pluralizors lang with
  | none => defaultPluralizor
  | some v => v

/-- Embeds `(*I18n).compileTranslation`. -/
def I18n.compileTranslation (i : I18n) (locale name text : String) : CompiledTranslation :=
  { locale := locale
    name := name
    pluralizor := i.pluralizor locale
    texts := compileText text }

/-- Embeds `(*I18n).lookupBestFallback` with explicit fuel bounding the
recursion depth; the outer `none` marks fuel exhaustion (the Go code has no
such bound and simply recurses).  Inner `some none` is Go's `nil` result. -/
def I18n.lookupBestFallback (i : I18n) : Nat → String → String → Option (Option CompiledTranslation)
  | 0, _, _ => none
  | fuel + 1, locale, name =>
    match mapGet i.fallbacks locale with
    | none => some (mapGet2 i.compiledTranslations i.defaultLocale name)
    | some fbs =>
      fbs.foldl
        (fun acc fb =>
          match acc with
          | none => none
          | some (some v) => some (some v)
          | some none =>
            match mapGet2 i.compiledTranslations fb name with
            | some v => some (some v)
            | none => i.lookupBestFallback fuel fb name)
        (some none)

/-- One inner-loop step of `compileFallbacks`: for `name` missing from
`locale`, copy the best-fit fallback entry in by reference. -/
def backfillStep (fuel : Nat) (name : String) (acc : Option I18n) (locale : String) : Option I18n :=
  match acc with
  | none => none
  | some s =>
    if locale = s.defaultLocale then some s
    else
      match mapGet2 s.compiledTranslations locale name with
      | some _ => some s
      | none =>
        match s.lookupBestFallback fuel locale name with
        | none => none
        | some none => some s
        | some (some bestfit) =>
          some { s with compiledTranslations := mapInsert2 s.compiledTranslations locale name bestfit }

/-- Embeds `(*I18n).compileFallbacks`: for every name of the default locale
and every other locale lacking it, consult `lookupBestFallback`.  The locale
key set and the default locale's name set are both stable during the pass,
matching the Go loop. -/
def I18n.compileFallbacks (i : I18n) (fuel : Nat) : Option I18n :=
  let names := ((mapGet i.compiledTranslations i.defaultLocale).getD []).map Prod.fst
  let locales := i.compiledTranslations.map Prod.fst
  names.foldl
    (fun acc name =>
      match acc with
      | none => none
      | some s => locales.foldl (backfillStep fuel name) (some s))
    (some i)

/-- The mutation part of `LoadMap`: each batch locale's compiled map is
reset to empty and refilled entry by entry. -/
def I18n.loadMapRaw (i : I18n) (languages : List (String × List (String × String))) : I18n :=
  languages.foldl
    (fun acc p =>
      let locale := nameInsenstive p.1
      let acc' := { acc with compiledTranslations := mapInsert acc.compiledTranslations locale [] }
      p.2.foldl
        (fun a q =>
          let trans := a.compileTranslation locale q.1 q.2
          { a with compiledTranslations := mapInsert2 a.compiledTranslations locale q.1 trans })
        acc')
    i

/-- `LoadMap` up to its (always-nil) error result: mutate, then run one
fallback-compilation pass. -/
def I18n.loadMapF (i : I18n) (languages : List (String × List (String × String))) (fuel : Nat) :
    Option I18n :=
  (i.loadMapRaw languages).compileFallbacks fuel

/-- Embeds `(*I18n).LoadMap` including its error channel: the Go body ends in
`return nil`, so a terminating run always yields `Except.ok`. -/
def I18n.loadMap (i : I18n) (languages : List (String × List (String × String))) (fuel : Nat) :
    Option (Except String I18n) :=
  (i.loadMapF languages fuel).map Except.ok

/-- The external world of `LoadFiles`: `os.ReadFile` composed with the
unmarshaler, per filename — either an error or a decoded name→text list. -/
def FileSys : Type := List (String × Except String (List (String × String)))

/-- Reading plus decoding one file; an unknown name is a read error. -/
def readFile (fs : FileSys) (v : String) : Except String (List (String × String)) :=
  (mapGet fs v).getD (Except.error "no such file")

/-- The accumulation loop of `LoadFiles`: read each file, merge its entries
into the per-locale batch, stop at the first failure. -/
def collectFiles (fs : FileSys) :
    List String → List (String × List (String × String)) →
    Except String (List (String × List (String × String)))
  | [], data => Except.ok data
  | v :: rest, data =>
    match readFile fs v with
    | Except.error e => Except.error e
    | Except.ok decoded =>
      let locale := nameInsenstive v
      let slot := decoded.foldl (fun sl q => mapInsert sl q.1 q.2) ((mapGet data locale).getD [])
      collectFiles fs rest (mapInsert data locale slot)

/-- Embeds `(*I18n).LoadFiles`: on a read or decode failure the error is
returned before `LoadMap` runs, so the core state is the untouched receiver. -/
def I18n.loadFiles (i : I18n) (fs : FileSys) (filenames : List String) (fuel : Nat) :
    Option (Except String Unit × I18n) :=
  match collectFiles fs filenames [] with
  | Except.error e => some (Except.error e, i)
  | Except.ok data =>
    match i.loadMapF data fuel with
    | none => none
    | some st => some (Except.ok (), st)

/-- Is an `Except` value the success constructor (Go: `err == nil`)? -/
def isOkE {ε α : Type} : Except ε α → Bool
  | Except.ok _ => true
  | Except.error _ => false

/-- Embeds `Locale`: a locale code bound to the core (the `parent` pointer is
passed explicitly as state). -/
structure Locale where
  locale : String

/-- Embeds `(*I18n).NewLocale`: the first canonicalized candidate whose locale
slot exists in the store, else the default locale. -/
def I18n.newLocale (i : I18n) (locales : List String) : Locale :=
  { locale :=
      ((locales.map nameInsenstive).find?
        (fun v => (mapGet i.compiledTranslations v).isSome)).getD i.defaultLocale }

/-- Embeds `(*Locale).lookup`: store, then runtime cache, then lazy
compilation of the context-stripped name in the default locale; the result is
(re)inserted into the runtime cache under the original name. -/
def Locale.lookup (l : Locale) (st : I18n) (name : String) : CompiledTranslation × I18n :=
  match mapGet2 st.compiledTranslations l.locale name with
  | some selectedTrans => (selectedTrans, st)
  | none =>
    let runtimeTrans :=
      match mapGet st.runtimeCompiledTranslations name with
      | some rt => rt
      | none => st.compileTranslation st.defaultLocale name (trimContext name)
    (runtimeTrans,
      { st with runtimeCompiledTranslations :=
          mapInsert st.runtimeCompiledTranslations name runtimeTrans })

/-- Fallback value for a variant access; `compileText` always returns at
least one segment, so `Locale.string` never actually reaches it. -/
def emptyCompiledText : CompiledText := { text := "", tmpl := none }

/-- Embeds `(*Locale).render`: a template is executed externally on its
source, a literal is returned unchanged. -/
def render (exec : String → String) (text : CompiledText) : String :=
  match text.tmpl with
  | some src => exec src
  | none => text.text

/-- Embeds `(*Locale).String` (named `string` here): render variant 0. -/
def Locale.string (exec : String → String) (l : Locale) (st : I18n) (name : String) :
    String × I18n :=
  let r := l.lookup st name
  (render exec (r.1.texts.headD emptyCompiledText), r.2)

/-- Embeds `(*Locale).StringX`: synthesize `name <context>` and delegate. -/
def Locale.stringX (exec : String → String) (l : Locale) (st : I18n) (name context : String) :
    String × I18n :=
  l.string exec st (name ++ " <" ++ context ++ ">")

/-- Embeds `(*Locale).Number`: the attached pluralizor picks the variant
index; an index outside `texts` is Go's out-of-range panic, modelled `none`. -/
def Locale.number (exec : String → String) (l : Locale) (st : I18n) (name : String) (count : Int) :
    Option String × I18n :=
  let r := l.lookup st name
  let t := r.1
  let idx := t.pluralizor count (Int.ofNat t.texts.length)
  if h : 0 ≤ idx ∧ idx.toNat < t.texts.length then
    (some (render exec (t.texts.get ⟨idx.toNat, h.2⟩)), r.2)
  else
    (none, r.2)

/-- Embeds `(*Locale).NumberX`. -/
def Locale.numberX (exec : String → String) (l : Locale) (st : I18n)
    (name context : String) (count : Int) : Option String × I18n :=
  l.number exec st (name ++ " <" ++ context ++ ">") count

/-! ## Basic association-list lemmas -/

theorem mapGet_mapInsert_self {α : Type} (m : List (String × α)) (k : String) (v : α) :
    mapGet (mapInsert m k v) k = some v := by
  induction m with
  | nil => simp [mapInsert, mapGet]
  | cons p rest ih =>
    by_cases h : p.1 = k
    · simp [mapInsert, h, mapGet]
    · simp [mapInsert, h, mapGet, ih]

theorem mapGet_mapInsert_ne {α : Type} (m : List (String × α)) (k : String) (v : α)
    (k' : String) (h : k' ≠ k) : mapGet (mapInsert m k v) k' = mapGet m k' := by
  induction m with
  | nil => simp [mapInsert, mapGet, Ne.symm h]
  | cons p rest ih =>
    by_cases hp : p.1 = k
    · simp [mapInsert, hp, mapGet, Ne.symm h]
    · simp only [mapInsert, if_neg hp]
      by_cases hp' : p.1 = k'
      · simp [mapGet, hp']
      · simp [mapGet, hp', ih]

theorem mapInsert_same {α : Type} (m : List (String × α)) (k : String) (v : α)
    (h : mapGet m k = some v) : mapInsert m k v = m := by
  induction m with
  | nil => simp [mapGet] at h
  | cons p rest ih =>
    obtain ⟨pk, pv⟩ := p
    by_cases hp : pk = k
    · subst hp
      simp [mapGet] at h
      simp [mapInsert, h]
    · simp [mapGet, hp] at h
      simp [mapInsert, hp, ih h]

theorem mapGet_mem {α : Type} (m : List (String × α)) (k : String) (v : α)
    (h : mapGet m k = some v) : (k, v) ∈ m := by
  induction m with
  | nil => simp [mapGet] at h
  | cons p rest ih =>
    obtain ⟨pk, pv⟩ := p
    by_cases hp : pk = k
    · subst hp
      simp [mapGet] at h
      subst h
      exact List.mem_cons_self _ _
    · simp [mapGet, hp] at h
      exact List.mem_cons_of_mem _ (ih h)

/-- Fold invariant: a property preserved by every step (for list members)
holds of the final accumulator. -/
theorem foldlInvMem {α β : Type} (P : α → Prop) (step : α → β → α) :
    ∀ (l : List β) (a : α), P a → (∀ x b, b ∈ l → P x → P (step x b)) →
      P (l.foldl step a) := by
  intro l
  induction l with
  | nil => intro a ha _; simpa using ha
  | cons b rest ih =>
    intro a ha hs
    simp only [List.foldl_cons]
    exact ih (step a b) (hs a b (List.mem_cons_self b rest) ha)
      (fun x b' hb' => hs x b' (List.mem_cons_of_mem b hb'))

/-! ## C8: runtime-cache memoization -/

/-- C8: for a key registered in no store slot of the bound locale and not yet
cached, the first lookup caches its compiled result in the runtime cache
under the original key, and a second identical lookup returns exactly that
cached entry with the state unchanged — no recompilation, identical output. -/
theorem c8_runtime_cache_memoizes (st : I18n) (loc name : String)
    (h1 : mapGet2 st.compiledTranslations loc name = none)
    (h2 : mapGet st.runtimeCompiledTranslations name = none) :
    mapGet ((Locale.mk loc).lookup st name).2.runtimeCompiledTranslations name =
      some ((Locale.mk loc).lookup st name).1 ∧
    (Locale.mk loc).lookup ((Locale.mk loc).lookup st name).2 name =
      (Locale.mk loc).lookup st name := by
  have e1 : (Locale.mk loc).lookup st name =
      (st.compileTranslation st.defaultLocale name (trimContext name),
        { st with runtimeCompiledTranslations := mapInsert st.runtimeCompiledTranslations name (st.compileTranslation st.defaultLocale name (trimContext name)) }) := by
    simp [Locale.lookup, h1, h2]
  rw [e1]
  constructor
  · exact mapGet_mapInsert_self _ _ _
  · have hcache := mapGet_mapInsert_self st.runtimeCompiledTranslations name
      (st.compileTranslation st.defaultLocale name (trimContext name))
    simp only [Locale.lookup, h1, hcache]
    simp [mapInsert_same _ _ _ hcache]

/-- C8 witness at a concrete unregistered key. -/
theorem c8_runtime_cache_memoizes_w :
    mapGet ((Locale.mk "en").lookup (New "en" []) "k").2.runtimeCompiledTranslations "k" =
      some ((Locale.mk "en").lookup (New "en" []) "k").1 ∧
    (Locale.mk "en").lookup ((Locale.mk "en").lookup (New "en" []) "k").2 "k" =
      (Locale.mk "en").lookup (New "en" []) "k" :=
  c8_runtime_cache_memoizes (New "en" []) "en" "k" rfl rfl

/-! ## C9: load failure leaves the store intact -/

theorem collect_error (fs : FileSys) (v e : String) :
    ∀ (names : List String) (data : List (String × List (String × String))),
      v ∈ names → readFile fs v = Except.error e →
      ∃ e', collectFiles fs names data = Except.error e' := by
  intro names
  induction names with
  | nil => intro data hv _; exact absurd hv (List.not_mem_nil v)
  | cons u rest ih =>
    intro data hv he
    cases hu : readFile fs u with
    | error e2 => exact ⟨e2, by simp [collectFiles, hu]⟩
    | ok decoded =>
      have hv' : v ∈ rest := by
        rcases List.mem_cons.mp hv with h | h
        · subst h
          rw [he] at hu
          exact absurd hu (by simp)
        · exact h
      simp only [collectFiles, hu]
      exact ih _ hv' he

/-- C9: if any requested file fails to read/decode, `LoadFiles` propagates an
error and the returned core state is exactly the receiver — every entry
loaded earlier is intact. -/
theorem c9_load_failure_keeps_store (i : I18n) (fs : FileSys) (filenames : List String)
    (fuel : Nat) (v e : String) (hv : v ∈ filenames)
    (he : readFile fs v = Except.error e) :
    (i.loadFiles fs filenames fuel).map (fun r => (isOkE r.1, r.2)) = some (false, i) := by
  obtain ⟨e', h'⟩ := collect_error fs v e filenames [] hv he
  simp [I18n.loadFiles, h', isOkE]

/-- C9 witness: a one-file system whose only file fails to read. -/
theorem c9_load_failure_keeps_store_w :
    (((New "en" []).loadFiles [("a.json", Except.error "boom")] ["a.json"] 1).map
      (fun r => (isOkE r.1, r.2))) = some (false, New "en" []) :=
  c9_load_failure_keeps_store (New "en" []) [("a.json", Except.error "boom")] ["a.json"] 1
    "a.json" "boom" (List.mem_singleton.mpr rfl) rfl

/-! ## C10: LoadMap never fails -/

/-- C10: whenever `LoadMap` returns, its error result is nil — the body ends
in `return nil`, so callers can never observe a failure through it. -/
theorem c10_loadmap_never_fails (i : I18n) (languages : List (String × List (String × String)))
    (fuel : Nat) (r : Except String I18n) (h : i.loadMap languages fuel = some r) :
    isOkE r = true := by
  unfold I18n.loadMap at h
  cases hm : i.loadMapF languages fuel with
  | none => rw [hm] at h; simp at h
  | some st =>
    rw [hm] at h
    injection h with h
    rw [← h]
    rfl

/-- C10 witness at a concrete load. -/
theorem c10_loadmap_never_fails_w :
    isOkE ((Except.ok (New "en" [])) : Except String I18n) = true :=
  c10_loadmap_never_fails (New "en" []) [] 0 (Except.ok (New "en" [])) rfl

/-! ## C2: plural variant index bounds -/

/-- C2 (amended): for a translation text compiling to at least two variants,
the default pluralizor selects an in-bounds variant index for every
non-negative count. -/
theorem c2_default_pluralizor_in_bounds (text : String) (n : Int) (h0 : 0 ≤ n)
    (h2 : 2 ≤ (compileText text).length) :
    0 ≤ defaultPluralizor n (Int.ofNat (compileText text).length) ∧
    defaultPluralizor n (Int.ofNat (compileText text).length) <
      Int.ofNat (compileText text).length := by
  have hcast : Int.ofNat (compileText text).length = ((compileText text).length : Int) := rfl
  unfold defaultPluralizor
  rw [hcast]
  split_ifs <;> constructor <;> omega

/-- C2 witness at a two-variant text. -/
theorem c2_default_pluralizor_in_bounds_w :
    0 ≤ defaultPluralizor 2 (Int.ofNat (compileText "a | b").length) ∧
    defaultPluralizor 2 (Int.ofNat (compileText "a | b").length) <
      Int.ofNat (compileText "a | b").length :=
  c2_default_pluralizor_in_bounds "a | b" 2 (by decide) (by decide)

/-- The loaded store of the C2 counterexample: one single-segment
translation `"apples" ↦ "one"` in the default locale. -/
def c2st : I18n :=
  ((New "aa" []).loadMapF [("aa", [("apples", "one")])] 1).getD (New "aa" [])

/-- C2 counterexample: a loaded single-segment translation under the default
pluralizor and count 2 selects variant index 2, which is not below
`texts.length = 1`; `Number`'s variant access is out of bounds (Go panics,
modelled as `none`). -/
theorem c2_single_variant_out_of_bounds :
    ((mapGet2 c2st.compiledTranslations "aa" "apples").map
      (fun t => (t.pluralizor 2 (Int.ofNat t.texts.length), t.texts.length))) =
        some (2, 1) ∧
    (decide ((2 : Int) < 1)) = false ∧
    ((Locale.mk "aa").number (fun s => s) c2st "apples" 2).1 = none :=
  ⟨rfl, rfl, rfl⟩

/-! ## C3: termination of the fallback walk -/

/-- The store of the cyclic C3 configuration: default `"d"` defines `"k"`,
locales `"a"` and `"b"` are loaded empty, and the fallback graph is the
two-cycle `a → b → a`. -/
def c3cyc : I18n :=
  (New "d" [WithFallback [("a", ["b"]), ("b", ["a"])]]).loadMapRaw
    [("d", [("k", "T")]), ("a", []), ("b", [])]

theorem c3cyc_walk_none : ∀ fuel : Nat,
    c3cyc.lookupBestFallback fuel "a" "k" = none ∧
    c3cyc.lookupBestFallback fuel "b" "k" = none := by
  intro fuel
  induction fuel with
  | zero => exact ⟨rfl, rfl⟩
  | succ f ih =>
    have ea : c3cyc.lookupBestFallback (f + 1) "a" "k" =
        c3cyc.lookupBestFallback f "b" "k" := rfl
    have eb : c3cyc.lookupBestFallback (f + 1) "b" "k" =
        c3cyc.lookupBestFallback f "a" "k" := rfl
    exact ⟨ea.trans ih.2, eb.trans ih.1⟩

theorem c3cyc_loadmap_none : ∀ fuel : Nat,
    (New "d" [WithFallback [("a", ["b"]), ("b", ["a"])]]).loadMapF
      [("d", [("k", "T")]), ("a", []), ("b", [])] fuel = none := by
  intro fuel
  have ha := (c3cyc_walk_none fuel).1
  show c3cyc.compileFallbacks fuel = none
  have hb : backfillStep fuel "k" (some c3cyc) "a" = none := by
    have key : ∀ o : Option (Option CompiledTranslation), o = none →
        (match o with
         | none => none
         | some none => some c3cyc
         | some (some bestfit) => some { c3cyc with compiledTranslations := mapInsert2 c3cyc.compiledTranslations "a" "k" bestfit }) =
          (none : Option I18n) := by
      intro o h
      subst h
      rfl
    exact key _ ha
  calc c3cyc.compileFallbacks fuel
      = List.foldl (backfillStep fuel "k") (backfillStep fuel "k" (some c3cyc) "a") ["b"] := rfl
    _ = List.foldl (backfillStep fuel "k") none ["b"] := by rw [hb]
    _ = none := rfl

/-- The non-termination of the reference walk at the cyclic configuration:
for every recursion-depth budget the fueled embedding exhausts its fuel,
both for the chain walk itself and for the whole `LoadMap` backfill pass. -/
def backfillWalkDiverges : Prop :=
  (∀ fuel : Nat, c3cyc.lookupBestFallback fuel "a" "k" = none) ∧
  (∀ fuel : Nat,
    (New "d" [WithFallback [("a", ["b"]), ("b", ["a"])]]).loadMapF
      [("d", [("k", "T")]), ("a", []), ("b", [])] fuel = none)

/-- C3 counterexample: with the cyclic fallback map `a → b → a` and a name
defined in the default locale but missing along the cycle, the backfill
pass's chain walk never terminates — no finite recursion depth suffices. -/
theorem c3_cycle_diverges : backfillWalkDiverges :=
  ⟨fun fuel => (c3cyc_walk_none fuel).1, c3cyc_loadmap_none⟩

/-- A fallback configuration is ranked when each configured fallback edge
strictly decreases a rank — exactly the acyclic configurations. -/
def rankOk (i : I18n) (rank : String → Nat) : Bool :=
  i.fallbacks.all fun p => p.2.all fun fb => decide (rank fb < rank p.1)

theorem rankOk_lt {i : I18n} {rank : String → Nat} (h : rankOk i rank = true)
    {locale : String} {fbs : List String} (hf : mapGet i.fallbacks locale = some fbs)
    {fb : String} (hm : fb ∈ fbs) : rank fb < rank locale := by
  have hmem : (locale, fbs) ∈ i.fallbacks := mapGet_mem _ _ _ hf
  have h1 := (List.all_eq_true.mp h) _ hmem
  have h2 := (List.all_eq_true.mp h1) _ hm
  exact of_decide_eq_true h2

theorem lbf_fold_isSome (i : I18n) (f : Nat) (name : String) :
    ∀ (fbs : List String) (acc : Option (Option CompiledTranslation)),
      acc.isSome = true →
      (∀ fb ∈ fbs, (i.lookupBestFallback f fb name).isSome = true) →
      (fbs.foldl
        (fun acc fb =>
          match acc with
          | none => none
          | some (some v) => some (some v)
          | some none =>
            match mapGet2 i.compiledTranslations fb name with
            | some v => some (some v)
            | none => i.lookupBestFallback f fb name)
        acc).isSome = true := by
  intro fbs
  induction fbs with
  | nil => intro acc ha _; simpa using ha
  | cons fb rest ih =>
    intro acc ha hall
    simp only [List.foldl_cons]
    apply ih
    · cases acc with
      | none => simp at ha
      | some o =>
        cases o with
        | some v => rfl
        | none =>
          cases hg : mapGet2 i.compiledTranslations fb name with
          | some v => rfl
          | none =>
            show (i.lookupBestFallback f fb name).isSome = true
            exact hall fb (List.mem_cons_self _ _)
    · intro fb' h'
      exact hall fb' (List.mem_cons_of_mem _ h')

/-- C3 (amended): the fallback chain walk terminates for every ranked
(acyclic) fallback configuration — with fuel exceeding the starting locale's
rank the walk completes; a cyclic configuration diverges instead. -/
theorem c3_acyclic_walk_terminates (i : I18n) (rank : String → Nat)
    (h : rankOk i rank = true) :
    ∀ (fuel : Nat) (locale name : String), rank locale < fuel →
      (i.lookupBestFallback fuel locale name).isSome = true := by
  intro fuel
  induction fuel with
  | zero => intro locale name hl; exact absurd hl (Nat.not_lt_zero _)
  | succ f ih =>
    intro locale name hl
    cases hf : mapGet i.fallbacks locale with
    | none => simp [I18n.lookupBestFallback, hf]
    | some fbs =>
      have e : i.lookupBestFallback (f + 1) locale name =
          fbs.foldl
            (fun acc fb =>
              match acc with
              | none => none
              | some (some v) => some (some v)
              | some none =>
                match mapGet2 i.compiledTranslations fb name with
                | some v => some (some v)
                | none => i.lookupBestFallback f fb name)
            (some none) := by
        simp [I18n.lookupBestFallback, hf]
      rw [e]
      apply lbf_fold_isSome
      · rfl
      · intro fb hm
        exact ih fb name (Nat.lt_of_lt_of_le (rankOk_lt h hf hm) (Nat.lt_succ_iff.mp hl))

/-- C3 amended-claim witness: a one-edge acyclic configuration. -/
theorem c3_acyclic_walk_terminates_w :
    ((New "d" [WithFallback [("x", ["y"])]]).lookupBestFallback 2 "x" "k").isSome = true :=
  c3_acyclic_walk_terminates (New "d" [WithFallback [("x", ["y"])]])
    (fun s => if s = "x" then 1 else 0) (by decide) 2 "x" "k" (by decide)

/-! ## C1: configured chain versus default locale -/

/-- The C1 configuration: default `"ja-jp"`, chain `zh-tw → [zh-hk, zh-cn]`. -/
def c1i : I18n := New "ja-jp" [WithFallback [("zh-tw", ["zh-hk", "zh-cn"])]]

/-- The C1 batch: `"k"` defined only in `"zh-cn"` and the default `"ja-jp"`;
`"zh-tw"` loaded with no entries so its locale slot exists. -/
def c1batch : List (String × List (String × String)) :=
  [("zh-cn", [("k", "CN")]), ("ja-jp", [("k", "JP")]), ("zh-tw", [])]

/-- C1 (code-bug evaluation): in the spec's own fallback example the lookup
of `k` on a locale bound to `zh-tw` yields the DEFAULT locale's translation
`"JP"`, not `zh-cn`'s `"CN"` — recursing into chain entry `zh-hk`, which has
no configured chain, short-circuits to the default locale before `zh-cn` is
ever consulted. -/
theorem c1_chain_skipped_for_default :
    ((c1i.loadMapF c1batch 3).map fun st =>
      ((st.newLocale ["zh-tw"]).string (fun s => s) st "k").1) = some "JP" ∧
    ((c1i.loadMapF c1batch 3).map fun st =>
      (mapGet2 st.compiledTranslations "zh-tw" "k").map (fun t => t.locale)) =
        some (some "ja-jp") ∧
    (("JP" : String) == "CN") = false :=
  ⟨rfl, rfl, rfl⟩

/-! ## C4: recursive fallback chains -/

/-- The C4 counterexample configuration: default `"en-us"` with the claim's
fallback map. -/
def c4i : I18n := New "en-us" [WithFallback [("ja-jp", ["ko-kr"]), ("ko-kr", ["zh-tw"])]]

/-- The C4 counterexample batch: `"k"` defined only in `"zh-tw"`. -/
def c4batch : List (String × List (String × String)) :=
  [("en-us", []), ("ja-jp", []), ("ko-kr", []), ("zh-tw", [("k", "ZH")])]

/-- C4 counterexample: with a key defined only in `zh-tw` and a default
locale (`en-us`) that does not define it, the backfill pass never runs for
that key, so a locale bound to `ja-jp` renders the key as itself (`"k"`),
not `zh-tw`'s translation `"ZH"`. -/
theorem c4_needs_default_entry :
    ((c4i.loadMapF c4batch 3).map fun st =>
      ((st.newLocale ["ja-jp"]).string (fun s => s) st "k").1) = some "k" ∧
    (("k" : String) == "ZH") = false :=
  ⟨rfl, rfl⟩

/-- The C4 amended configuration: same fallback map with `"zh-tw"` as the
default locale, so the key is defined in the default locale. -/
def c4ai : I18n := New "zh-tw" [WithFallback [("ja-jp", ["ko-kr"]), ("ko-kr", ["zh-tw"])]]

/-- The C4 amended batch. -/
def c4abatch : List (String × List (String × String)) :=
  [("zh-tw", [("k", "ZH")]), ("ja-jp", [])]

/-- C4 (amended): with `zh-tw` as the default locale (the backfill pass only
handles names the default locale defines), a locale bound to `ja-jp`
resolves `k` to `zh-tw`'s translation through the recursive chain
`ja-jp → ko-kr → zh-tw`: the stored entry carries origin locale `zh-tw`. -/
theorem c4_recursive_chain_resolves :
    ((c4ai.loadMapF c4abatch 3).map fun st =>
      ((st.newLocale ["ja-jp"]).string (fun s => s) st "k").1) = some "ZH" ∧
    ((c4ai.loadMapF c4abatch 3).map fun st =>
      (mapGet2 st.compiledTranslations "ja-jp" "k").map (fun t => t.locale)) =
        some (some "zh-tw") :=
  ⟨rfl, rfl⟩

/-! ## C6: unmatched keys render as themselves -/

theorem strMk_data (s : String) : String.mk s.data = s := by
  cases s
  rfl

/-- C6 (amended): an unmatched, uncached key is compiled from its
context-stripped form; when the key carries no trailing `<…>` group, no
`" | "` separator and no template marker, `String` returns the key itself
verbatim. -/
theorem c6_unmatched_key_verbatim (exec : String → String) (st : I18n) (loc key : String)
    (h1 : mapGet2 st.compiledTranslations loc key = none)
    (h2 : mapGet st.runtimeCompiledTranslations key = none)
    (h3 : trimContext key = key)
    (h4 : splitBar key.data [] = [key.data])
    (h5 : hasSub tmplOpen key.data = false) :
    ((Locale.mk loc).string exec st key).1 = key := by
  have hct : compileText key = [{ text := key, tmpl := none }] := by
    unfold compileText
    rw [h4]
    simp [h5, strMk_data]
  have hl : ((Locale.mk loc).lookup st key).1 =
      st.compileTranslation st.defaultLocale key (trimContext key) := by
    simp [Locale.lookup, h1, h2]
  show render exec ((((Locale.mk loc).lookup st key).1).texts.headD emptyCompiledText) = key
  rw [hl]
  unfold I18n.compileTranslation
  rw [h3]
  simp only [hct]
  rfl

/-- C6 amended-claim witness at a plain key on an empty store. -/
theorem c6_unmatched_key_verbatim_w :
    ((Locale.mk "en").string (fun s => s) (New "en" []) "hello").1 = "hello" :=
  c6_unmatched_key_verbatim (fun s => s) (New "en" []) "en" "hello" rfl rfl rfl rfl rfl

/-- C6 counterexample: the unmatched key `"a | b"` contains no template
marker, yet `String` returns only its first `" | "` segment `"a"`, not the
key verbatim. -/
theorem c6_separator_key_not_verbatim :
    ((Locale.mk "en").string (fun s => s) (New "en" []) "a | b").1 = "a" ∧
    (("a" : String) == "a | b") = false :=
  ⟨rfl, rfl⟩

/-! ## C7: context stripping keeps the space -/

/-- C7 (code-bug evaluation): `StringX("Post","adjective")` on an empty store
renders `"Post "` with a trailing space — the regex `<(.*?)>$` does not
include the space before `<` — whereas `String("Post")` renders `"Post"`;
the two differ, contrary to the claim and the package's own documentation. -/
theorem c7_unmatched_context_keeps_space :
    ((Locale.mk "en").stringX (fun s => s) (New "en" []) "Post" "adjective").1 = "Post " ∧
    ((Locale.mk "en").string (fun s => s) (New "en" []) "Post").1 = "Post" ∧
    (("Post " : String) == "Post") = false :=
  ⟨rfl, rfl, rfl⟩

/-! ## C5: LoadMap replaces a locale slot wholesale -/

theorem loadMapRaw_slot (i : I18n) (batch : List (String × List (String × String)))
    (L0 : String) (hnot : ∀ p ∈ batch, nameInsenstive p.1 ≠ L0) :
    mapGet (i.loadMapRaw batch).compiledTranslations L0 = mapGet i.compiledTranslations L0 := by
  unfold I18n.loadMapRaw
  apply foldlInvMem
    (fun a : I18n => mapGet a.compiledTranslations L0 = mapGet i.compiledTranslations L0)
  · rfl
  · intro x p hp hx
    have hne : L0 ≠ nameInsenstive p.1 := Ne.symm (hnot p hp)
    apply foldlInvMem
      (fun a : I18n => mapGet a.compiledTranslations L0 = mapGet i.compiledTranslations L0)
    · show mapGet (mapInsert x.compiledTranslations (nameInsenstive p.1) []) L0 = _
      rw [mapGet_mapInsert_ne _ _ _ _ hne]
      exact hx
    · intro y q _ hy
      show mapGet (mapInsert2 y.compiledTranslations (nameInsenstive p.1) q.1 _) L0 = _
      unfold mapInsert2
      rw [mapGet_mapInsert_ne _ _ _ _ hne]
      exact hy

theorem get2_insert2_keep {α : Type} (m : List (String × List (String × α)))
    (l n L0 n0 : String) (v t : α) (hmiss : mapGet2 m l n = none)
    (hs : mapGet2 m L0 n0 = some t) : mapGet2 (mapInsert2 m l n v) L0 n0 = some t := by
  by_cases hl : L0 = l
  · subst hl
    by_cases hn : n0 = n
    · subst hn
      rw [hmiss] at hs
      exact absurd hs (by simp)
    · unfold mapGet2 mapInsert2
      rw [mapGet_mapInsert_self]
      show mapGet (mapInsert ((mapGet m L0).getD []) n v) n0 = some t
      rw [mapGet_mapInsert_ne _ _ _ _ hn]
      unfold mapGet2 at hs
      cases hgl : mapGet m L0 with
      | none => rw [hgl] at hs; exact absurd hs (by simp)
      | some slot => rw [hgl] at hs; simpa using hs
  · unfold mapGet2 mapInsert2
    rw [mapGet_mapInsert_ne _ _ _ _ hl]
    unfold mapGet2 at hs
    exact hs

theorem backfillStep_keep (fuel : Nat) (name L0 n0 : String) (t : CompiledTranslation)
    (acc : Option I18n) (locale : String)
    (ha : ∀ s, acc = some s → mapGet2 s.compiledTranslations L0 n0 = some t) :
    ∀ s, backfillStep fuel name acc locale = some s →
      mapGet2 s.compiledTranslations L0 n0 = some t := by
  intro s hstep
  cases acc with
  | none => exact absurd hstep (by simp [backfillStep])
  | some x =>
    have hx := ha x rfl
    revert hstep
    show (if locale = x.defaultLocale then some x
      else
        match mapGet2 x.compiledTranslations locale name with
        | some _ => some x
        | none =>
          match x.lookupBestFallback fuel locale name with
          | none => none
          | some none => some x
          | some (some bestfit) => some { x with compiledTranslations := mapInsert2 x.compiledTranslations locale name bestfit }) = some s →
      mapGet2 s.compiledTranslations L0 n0 = some t
    by_cases hd : locale = x.defaultLocale
    · rw [if_pos hd]
      intro h
      injection h with h
      rw [← h]
      exact hx
    · rw [if_neg hd]
      cases hg : mapGet2 x.compiledTranslations locale name with
      | some v =>
        intro h
        injection h with h
        rw [← h]
        exact hx
      | none =>
        cases hb : x.lookupBestFallback fuel locale name with
        | none => intro h; exact absurd h (by simp)
        | some ob =>
          cases ob with
          | none =>
            intro h
            injection h with h
            rw [← h]
            exact hx
          | some bf =>
            intro h
            injection h with h
            rw [← h]
            exact get2_insert2_keep _ _ _ _ _ _ _ hg hx

theorem backfillFold_keep (fuel : Nat) (name L0 n0 : String) (t : CompiledTranslation)
    (locales : List String) (acc : Option I18n)
    (ha : ∀ s, acc = some s → mapGet2 s.compiledTranslations L0 n0 = some t) :
    ∀ s, locales.foldl (backfillStep fuel name) acc = some s →
      mapGet2 s.compiledTranslations L0 n0 = some t :=
  foldlInvMem
    (fun o : Option I18n => ∀ s, o = some s → mapGet2 s.compiledTranslations L0 n0 = some t)
    (backfillStep fuel name) locales acc ha
    (fun x b _ hx => backfillStep_keep fuel name L0 n0 t x b hx)

theorem compileFallbacks_keep (st : I18n) (fuel : Nat) (L0 n0 : String)
    (t : CompiledTranslation) (hs : mapGet2 st.compiledTranslations L0 n0 = some t)
    (st' : I18n) (h : st.compileFallbacks fuel = some st') :
    mapGet2 st'.compiledTranslations L0 n0 = some t := by
  have h' : (((mapGet st.compiledTranslations st.defaultLocale).getD []).map Prod.fst).foldl
      (fun acc name =>
        match acc with
        | none => none
        | some s => (st.compiledTranslations.map Prod.fst).foldl (backfillStep fuel name) (some s))
      (some st) = some st' := h
  have main := foldlInvMem
    (fun o : Option I18n => ∀ s, o = some s → mapGet2 s.compiledTranslations L0 n0 = some t)
    (fun acc name =>
      match acc with
      | none => none
      | some s => (st.compiledTranslations.map Prod.fst).foldl (backfillStep fuel name) (some s))
    (((mapGet st.compiledTranslations st.defaultLocale).getD []).map Prod.fst)
    (some st)
    (fun s hss => by injection hss with hss; rw [← hss]; exact hs)
    (fun x b _ hx => by
      cases x with
      | none => intro s hss; exact absurd hss (by simp)
      | some y =>
        exact backfillFold_keep fuel b L0 n0 t (st.compiledTranslations.map Prod.fst)
          (some y) (fun s hss => by injection hss with hss; rw [← hss]; exact hx y rfl))
  exact main st' h'

/-- C5 (amended): a later `LoadMap` resets each batch locale's compiled map
wholesale, but entries of every locale absent from the batch survive both
the merge and the backfill pass unchanged. -/
theorem c5_other_locales_survive (i : I18n) (batch : List (String × List (String × String)))
    (L0 n0 : String) (t : CompiledTranslation) (fuel : Nat) (st' : I18n)
    (hmem : mapGet2 i.compiledTranslations L0 n0 = some t)
    (hnot : ∀ p ∈ batch, nameInsenstive p.1 ≠ L0)
    (hld : i.loadMapF batch fuel = some st') :
    mapGet2 st'.compiledTranslations L0 n0 = some t := by
  have hraw : mapGet2 (i.loadMapRaw batch).compiledTranslations L0 n0 = some t := by
    unfold mapGet2 at hmem ⊢
    rw [loadMapRaw_slot i batch L0 hnot]
    exact hmem
  exact compileFallbacks_keep _ fuel L0 n0 t hraw st' hld

/-- The state of the C5 witness before the second load: locale `"aa"` holds
`"n1"`. -/
def c5base : I18n := (New "en-us" []).loadMapRaw [("aa", [("n1", "x")])]

/-- The compiled entry of the C5 witness. -/
def c5t : CompiledTranslation := (New "en-us" []).compileTranslation "aa" "n1" "x"

/-- The state of the C5 witness after loading a batch for locale `"bb"`. -/
def c5wst : I18n := (c5base.loadMapF [("bb", [("n2", "y")])] 1).getD c5base

/-- C5 amended-claim witness: a later load of locale `"bb"` keeps `"aa"`'s
entry for `"n1"`. -/
theorem c5_other_locales_survive_w :
    mapGet2 c5wst.compiledTranslations "aa" "n1" = some c5t :=
  c5_other_locales_survive c5base [("bb", [("n2", "y")])] "aa" "n1" c5t 1 c5wst
    rfl (by decide) rfl

/-- The C5 counterexample states: load `(zh-tw, n1)`, then load `(zh-tw, n2)`
in a second call. -/
def c5i1 : I18n :=
  ((New "en-us" []).loadMapF [("zh-tw", [("n1", "a")])] 1).getD (New "en-us" [])

/-- The C5 counterexample state after the second load. -/
def c5i2 : I18n := (c5i1.loadMapF [("zh-tw", [("n2", "b")])] 1).getD c5i1

/-- C5 counterexample: the second `LoadMap` call recreates `zh-tw`'s compiled
map from scratch, so the entry `(zh-tw, n1)` loaded by the first call is
gone afterwards — `LoadMap` does not merge within a reloaded locale. -/
theorem c5_reload_drops_old_names :
    (mapGet2 c5i1.compiledTranslations "zh-tw" "n1").isSome = true ∧
    c5i1.loadMapF [("zh-tw", [("n2", "b")])] 1 = some c5i2 ∧
    (mapGet2 c5i2.compiledTranslations "zh-tw" "n1").isSome = false :=
  ⟨rfl, rfl, rfl⟩

end I18nGo
